import Mathlib

/-!
Shallow embedding of the document-ingestion pipeline (loaders.py, chunkers.py,
parsers.py, main.py) and proofs about the claims of its specification.

Modelling conventions:
* Python exceptions are values of type PyErr; a function that can let an
  exception escape returns Except PyErr; a function whose whole body is
  wrapped in a catch-all handler is total.
* External collaborators (the filesystem, glob, the langchain loaders and
  splitters, unstructured.partition, markdownify, os.path.abspath) are
  oracle fields of a World structure; the repository's own control flow,
  dispatch tables and metadata stitching are embedded faithfully.
* Log calls are recorded as (level, tag) pairs; the tag names the source
  call site, message texts are abstracted.
* Python dicts are association lists in insertion order; updating an
  existing key keeps its position, a new key is appended.
-/

/-- Log severity levels used by the logging module. -/
inductive LogLevel
  | debug
  | info
  | warning
  | error
deriving DecidableEq, Repr

/-- One log record: a severity and a tag naming the source call site. -/
structure LogEntry where
  level : LogLevel
  tag : String
deriving DecidableEq, Repr

/-- A Python exception: TypeError, ValueError (the only class the repository
itself raises and the documented failure class of splitter construction), or
any other exception class. -/
inductive PyErr
  | typeErr (msg : String)
  | valueErr (msg : String)
  | exc (msg : String)
deriving DecidableEq, Repr

/-- A Python float, identified by its literal form; the pipeline only passes
floats through (breakpoint threshold amounts), never computes with them. -/
structure PyFloat where
  rep : String
deriving DecidableEq, Repr

/-- A Python value that can appear in Record metadata: the JSON-compatible
types checked by the isinstance test in main.py, plus `other` for any
non-serializable object, carried with its str() representation. -/
inductive MetaVal
  | str (s : String)
  | int (n : Int)
  | float (f : PyFloat)
  | bool (b : Bool)
  | none
  | list (xs : List MetaVal)
  | dict (kvs : List (String × MetaVal))
  | other (srepr : String)

/-- Decimal digits of an integer, Python style (minus sign for negatives). -/
def pyIntStr (n : Int) : String :=
  if n < 0 then "-" ++ toString n.natAbs else toString n.natAbs

mutual

/-- Python str() of a metadata value.  Scalars follow Python exactly;
for container values the element reprs are joined Python-style, with the
string-escaping of repr abstracted to plain quoting (no claim depends on the
container cases). -/
def pyStr : MetaVal → String
  | .str s => s
  | .int n => pyIntStr n
  | .float f => f.rep
  | .bool b => if b then "True" else "False"
  | .none => "None"
  | .list xs => "[" ++ pyReprJoin xs ++ "]"
  | .dict kvs => "\x7b" ++ pyReprJoinKV kvs ++ "\x7d"
  | .other srepr => srepr

/-- Python repr() of a metadata value as used inside container str();
differs from str() on strings, which are quoted. -/
def pyRepr : MetaVal → String
  | .str s => "'" ++ s ++ "'"
  | .int n => pyIntStr n
  | .float f => f.rep
  | .bool b => if b then "True" else "False"
  | .none => "None"
  | .list xs => "[" ++ pyReprJoin xs ++ "]"
  | .dict kvs => "\x7b" ++ pyReprJoinKV kvs ++ "\x7d"
  | .other srepr => srepr

/-- Comma-joined reprs of a list of values. -/
def pyReprJoin : List MetaVal → String
  | [] => ""
  | [v] => pyRepr v
  | v :: rest => pyRepr v ++ ", " ++ pyReprJoin rest

/-- Comma-joined key: value reprs of a dict. -/
def pyReprJoinKV : List (String × MetaVal) → String
  | [] => ""
  | [(k, v)] => "'" ++ k ++ "': " ++ pyRepr v
  | (k, v) :: rest => "'" ++ k ++ "': " ++ pyRepr v ++ ", " ++ pyReprJoinKV rest

end

/-- A langchain Document: page content plus metadata dict. -/
structure Document where
  page_content : String
  metadata : List (String × MetaVal)

/-- Python dict lookup d.get(k) on an insertion-ordered association list. -/
def dictGet : List (String × MetaVal) → String → Option MetaVal
  | [], _ => Option.none
  | kv :: rest, k => if kv.1 = k then some kv.2 else dictGet rest k

/-- Python dict lookup with default, d.get(k, dv). -/
def dictGetD (d : List (String × MetaVal)) (k : String) (dv : MetaVal) : MetaVal :=
  (dictGet d k).getD dv

/-- Python key-membership test, k in d. -/
def dictMem : List (String × MetaVal) → String → Bool
  | [], _ => false
  | kv :: rest, k => kv.1 = k || dictMem rest k

/-- Python dict update d[k] = v: replace in place if the key exists,
append otherwise. -/
def dictSet (d : List (String × MetaVal)) (k : String) (v : MetaVal) :
    List (String × MetaVal) :=
  if dictMem d k then
    d.map (fun kv => if kv.1 = k then (k, v) else kv)
  else
    d ++ [(k, v)]


/-! Decimal formatting of the document and chunk indices, as produced by a
Python f-string, and the separator structure of chunk identifiers. -/

/-- The character of one decimal digit. -/
def digitChar (d : Nat) : Char := Char.ofNat (48 + d)

/-- Decimal numeral of a natural number, most significant digit first:
exactly the text an f-string renders for a nonnegative int. -/
def natToDec (n : Nat) : List Char :=
  if _h : n < 10 then [digitChar n]
  else natToDec (n / 10) ++ [digitChar (n % 10)]
decreasing_by
  exact Nat.div_lt_self (by omega) (by omega)


/-- Decimal string of a natural number (f-string rendering of an index). -/
def natStr (n : Nat) : String := String.mk (natToDec n)

/-- The chunk identifier assigned in chunkers.py:
source, document index, strategy and chunk index joined by underscores. -/
def mkChunkId (src : String) (docIdx : Nat) (strat : String) (chunkIdx : Nat) : String :=
  src ++ "_" ++ natStr docIdx ++ "_" ++ strat ++ "_" ++ natStr chunkIdx


/-! Embedding of loaders.py. -/

/-- The langchain loader classes named by loaders.py. -/
inductive LoaderCls
  | textLoader
  | pyPDFLoader
  | unstructuredMarkdownLoader
  | csvLoader
  | docx2txtLoader
  | unstructuredPowerPointLoader
  | unstructuredEmailLoader
  | unstructuredLoader
  | webBaseLoader
deriving DecidableEq, Repr

/-- Keyword arguments for a loader constructor.  The adapter itself only
reads or writes the web_paths entry; any other entries only matter to the
external loader, which the oracle models. -/
structure LoaderKwargs where
  web_paths : Option (List String)
deriving DecidableEq, Repr

/-- An embeddings provider for the semantic chunker. -/
inductive Emb
  | openAIDefault
  | custom (id : Nat)
deriving DecidableEq, Repr

/-- The code languages of the language_map in chunkers.py. -/
inductive CodeLanguage
  | python
  | js
  | markdown
deriving DecidableEq, Repr

/-- A constructed text splitter, identified by the constructor chunkers.py
called and the arguments it passed.  The semantic constructor receives no
chunk_size or chunk_overlap: the source deliberately does not pass them. -/
inductive Splitter
  | character (chunk_size chunk_overlap : Int) (separator : String)
      (is_separator_regex : Bool)
  | recursive (chunk_size chunk_overlap : Int) (separators : List String)
      (keep_separator : Bool)
  | semantic (embeddings : Emb) (breakpoint_threshold_type : String)
      (breakpoint_threshold_amount : PyFloat)
  | fromLanguage (language : CodeLanguage) (chunk_size chunk_overlap : Int)
      (keep_separator : Bool)
deriving DecidableEq, Repr

/-- Keyword arguments read by get_text_splitter via kwargs.get. -/
structure SplitterKwargs where
  separator : Option String
  is_separator_regex : Option Bool
  separators : Option (List String)
  keep_separator : Option Bool
  embeddings : Option Emb
  breakpoint_threshold_type : Option String
  breakpoint_threshold_amount : Option PyFloat
deriving DecidableEq, Repr

def emptySplitterKwargs : SplitterKwargs :=
  ⟨Option.none, Option.none, Option.none, Option.none, Option.none, Option.none, Option.none⟩

/-- One element returned by unstructured.partition: its text, category,
element id, and the dict form of its metadata. -/
structure RawElement where
  text : String
  category : String
  elemId : String
  metadataDict : List (String × MetaVal)

/-- The partition arguments parse_file_to_elements assembles: its named
parameters merged with the skip_infer_table_types default; caller-supplied
extra partition kwargs are not modelled (they flow only to the oracle). -/
structure PartitionOpts where
  strategy : String
  infer_table_structure : Bool
  extract_images_in_pdf : Bool
deriving DecidableEq, Repr

/-- The external collaborators: filesystem tests, glob enumeration, the
loader classes (construction plus load combined in one call), splitter
construction (documented to fail only with ValueError, the class the
repository also raises and catches), text splitting, unstructured
partitioning, whitespace cleaning, markdownify, and os.path.abspath. -/
structure World where
  pathExists : String → Bool
  isDir : String → Bool
  isFile : String → Bool
  globFiles : String → Bool → List String
  loaderLoad : LoaderCls → Option String → LoaderKwargs → Except PyErr (List Document)
  constructSplitter : Splitter → Option String
  splitText : Splitter → String → Except PyErr (List String)
  partitionCall : String → PartitionOpts → Except PyErr (List RawElement)
  cleanWhitespace : String → String
  hasMarkdownify : Bool
  htmlToMarkdown : String → Except PyErr String
  abspath : String → String

/-- Filesystem coherence: directories and regular files exist, and the
empty path does not (os.path.exists of an empty string is always False). -/
structure World.Wf (w : World) : Prop where
  isDir_exists : ∀ p, w.isDir p = true → w.pathExists p = true
  isFile_exists : ∀ p, w.isFile p = true → w.pathExists p = true
  pathExists_empty : w.pathExists "" = false

/-- The extension-to-loader table DEFAULT_LOADERS of loaders.py. -/
def DEFAULT_LOADERS : List (String × LoaderCls) :=
  [(".txt", .textLoader),
   (".pdf", .pyPDFLoader),
   (".md", .unstructuredMarkdownLoader),
   (".csv", .csvLoader),
   (".docx", .docx2txtLoader),
   (".pptx", .unstructuredPowerPointLoader),
   (".eml", .unstructuredEmailLoader),
   (".py", .textLoader)]

/-- DEFAULT_LOADERS.get(ext). -/
def lookupDefaultLoader : List (String × LoaderCls) → String → Option LoaderCls
  | [], _ => Option.none
  | kv :: rest, e => if kv.1 = e then some kv.2 else lookupDefaultLoader rest e

/-- Characters of the posix basename: everything after the last slash. -/
def basenameChars (cs : List Char) : List Char :=
  cs.foldl (fun acc c => if c = '/' then [] else acc ++ [c]) []

/-- Extension part of os.path.splitext on the character list: the suffix
from the last dot of the basename, provided some earlier character of the
basename is not a dot (leading dots never start an extension). -/
def extChars (cs : List Char) : List Char :=
  let base := basenameChars cs
  if base.contains '.' then
    let afterDot := (base.reverse.takeWhile (fun c => c ≠ '.')).reverse
    let beforeDot := base.take (base.length - afterDot.length - 1)
    if beforeDot.any (fun c => c ≠ '.') then '.' :: afterDot else []
  else []

/-- The extension os.path.splitext returns for a path. -/
def splitextExt (p : String) : String := String.mk (extChars p.data)

/-- The lowercased extension, ext.lower(): each character lowered
(ASCII model of str.lower). -/
def extLower (p : String) : String := String.mk ((extChars p.data).map Char.toLower)

/-- Loader resolution of loaders.py lines 61-67: table lookup on the
lowercased extension, falling back to UnstructuredLoader with a warning. -/
def resolveLoader (p : String) : LoaderCls × List LogEntry :=
  match lookupDefaultLoader DEFAULT_LOADERS (extLower p) with
  | some c => (c, [])
  | Option.none => (.unstructuredLoader, [⟨.warning, "no_default_loader"⟩])

/-- Value assigned to a missing source key, loaders.py lines 94-96:
file_path if truthy, else loader_kwargs.get(path_arg_name); a list value is
unwrapped to its first element (an empty list would raise IndexError). -/
def sourceValue (fp : Option String) (kwPaths : Option (List String)) :
    Except PyErr MetaVal :=
  let fromKw : Except PyErr MetaVal :=
    match kwPaths with
    | Option.none => .ok MetaVal.none
    | some [] => .error (.exc "IndexError")
    | some (u :: _) => .ok (.str u)
  match fp with
  | some p => if p = "" then fromKw else .ok (.str p)
  | Option.none => fromKw

/-- loaders.py lines 92-96: give every document a source key, never
overwriting one the loader already supplied. -/
def applySource (fp : Option String) (kwPaths : Option (List String)) :
    List Document → Except PyErr (List Document)
  | [] => .ok []
  | d :: rest =>
    let d' : Except PyErr Document :=
      if dictMem d.metadata "source" then .ok d
      else
        match sourceValue fp kwPaths with
        | .ok v => .ok ⟨d.page_content, dictSet d.metadata "source" v⟩
        | .error e => .error e
    match d' with
    | .error e => .error e
    | .ok d2 =>
      match applySource fp kwPaths rest with
      | .error e => .error e
      | .ok rest2 => .ok (d2 :: rest2)

/-- Everything load_single_file does after the loader class is known:
the WebBaseLoader path rewriting, one oracle call standing for loader
construction plus loader.load() (the info log between the two source steps
is emitted just before the call), the source stitching, and the catch-all
except that logs and returns an empty list. -/
def loadWithResolved (w : World) (p : String) (resolved : LoaderCls)
    (loader_kwargs : LoaderKwargs) (rlogs : List LogEntry) :
    Except PyErr (List Document) × List LogEntry :=
  let web := resolved = LoaderCls.webBaseLoader
  let fp2 : Option String := if web then Option.none else some p
  let kw2 : LoaderKwargs := if web then ⟨some [p]⟩ else loader_kwargs
  let kwPaths : Option (List String) := if web then some [p] else Option.none
  let argPath : Option String :=
    match fp2 with
    | some q => if q = "" then Option.none else some q
    | Option.none => Option.none
  match w.loaderLoad resolved argPath kw2 with
  | .error _ => (.ok [], rlogs ++ [⟨.info, "loading_file"⟩, ⟨.error, "load_file_error"⟩])
  | .ok docs =>
    match applySource fp2 kwPaths docs with
    | .error _ => (.ok [], rlogs ++ [⟨.info, "loading_file"⟩, ⟨.error, "load_file_error"⟩])
    | .ok docs2 =>
      (.ok docs2, rlogs ++ [⟨.info, "loading_file"⟩, ⟨.info, "loaded_count"⟩])

/-- loaders.py load_single_file.  A None path makes os.path.exists raise
TypeError before the try block, so that call raises; a missing path logs an
error and returns an empty list; otherwise the loader class is the explicit
one or the one resolved from the extension. -/
def load_single_file (w : World) (file_path : Option String)
    (loader_cls : Option LoaderCls) (loader_kwargs : LoaderKwargs) :
    Except PyErr (List Document) × List LogEntry :=
  match file_path with
  | Option.none => (.error (.typeErr "exists_on_None"), [])
  | some p =>
    if w.pathExists p = false then
      (.ok [], [⟨.error, "file_not_found"⟩])
    else
      match loader_cls with
      | some c => loadWithResolved w p c loader_kwargs []
      | Option.none =>
        let rl := resolveLoader p
        loadWithResolved w p rl.1 loader_kwargs rl.2

/-- The per-file loop of load_directory: only regular files are loaded;
a per-file exception is logged and skipped in silent mode and re-raised in
strict mode (load_single_file, which never raises for a string path, makes
the strict branch unreachable). -/
def loadDirLoop (w : World) (loader_kwargs : LoaderKwargs) (silent_errors : Bool) :
    List String → Except PyErr (List Document) × List LogEntry
  | [] => (.ok [], [])
  | f :: rest =>
    if w.isFile f then
      match load_single_file w (some f) Option.none loader_kwargs with
      | (.ok docs, lg) =>
        match loadDirLoop w loader_kwargs silent_errors rest with
        | (.ok acc, lg2) => (.ok (docs ++ acc), lg ++ lg2)
        | (.error e, lg2) => (.error e, lg ++ lg2)
      | (.error e, lg) =>
        if silent_errors then
          match loadDirLoop w loader_kwargs silent_errors rest with
          | (res, lg2) => (res, lg ++ [⟨.warning, "load_file_warn"⟩] ++ lg2)
        else (.error e, lg)
    else loadDirLoop w loader_kwargs silent_errors rest

/-- loaders.py load_directory.  A missing directory logs an error and
returns an empty list; the files come from glob on os.path.join of the
directory and pattern; the whole body sits in a catch-all except that logs
and returns an empty list, so the function itself never raises.  The dead
locals of the source (fallback_loader and the unused _load_file helper) are
omitted, and loader_cls is likewise dead: the loop passes only
loader_kwargs to load_single_file. -/
def load_directory (w : World) (dir_path glob_pattern : String)
    (_loader_cls : Option LoaderCls) (loader_kwargs : LoaderKwargs)
    (recursive _use_multithreading show_progress silent_errors : Bool) :
    List Document × List LogEntry :=
  if w.isDir dir_path = false then
    ([], [⟨.error, "dir_not_found"⟩])
  else
    let files := w.globFiles (dir_path ++ "/" ++ glob_pattern) recursive
    let plog : List LogEntry := if show_progress then [⟨.info, "found_files"⟩] else []
    match loadDirLoop w loader_kwargs silent_errors files with
    | (.ok docs, lg) => (docs, plog ++ lg ++ [⟨.info, "dir_loaded_count"⟩])
    | (.error _, lg) => ([], plog ++ lg ++ [⟨.error, "dir_load_error"⟩])

/-! Embedding of chunkers.py. -/

/-- Python str.startswith at the character-list level (String.startsWith
of core Lean is not kernel-reducible). -/
def pyStartsWith (s pre : String) : Bool := pre.data.isPrefixOf s.data

/-- The language_map of get_text_splitter. -/
def languageMapLookup (s : String) : Option CodeLanguage :=
  if s = "code_python" then some .python
  else if s = "code_javascript" then some .js
  else if s = "code_markdown" then some .markdown
  else Option.none

/-- The source string used in a chunk identifier:
str of metadata.get(source, the literal doc). -/
def docSourceStr (d : Document) : String :=
  pyStr (dictGetD d.metadata "source" (.str "doc"))

/-- One external splitter constructor call: the oracle may refuse with a
ValueError message (the documented failure class of these constructors,
including the pydantic validation errors of the default OpenAIEmbeddings,
which subclass ValueError). -/
def constructOr (w : World) (sp : Splitter) (lg : List LogEntry) :
    Except PyErr Splitter × List LogEntry :=
  match w.constructSplitter sp with
  | some m => (.error (.valueErr m), lg)
  | Option.none => (.ok sp, lg)

/-- chunkers.py get_text_splitter: strategy dispatch with the literal
defaults of the source; unknown strategies and unsupported code languages
raise ValueError.  chunk_size and chunk_overlap are passed to every
constructor except the semantic one, which the source calls without them. -/
def get_text_splitter (w : World) (strategy : String) (chunk_size chunk_overlap : Int)
    (kwargs : SplitterKwargs) : Except PyErr Splitter × List LogEntry :=
  let lg0 : List LogEntry := [⟨.info, "create_splitter"⟩]
  if strategy = "character" then
    constructOr w (.character chunk_size chunk_overlap (kwargs.separator.getD "\n")
      (kwargs.is_separator_regex.getD false)) lg0
  else if strategy = "recursive" then
    constructOr w (.recursive chunk_size chunk_overlap
      (kwargs.separators.getD ["\n\n", "\n", ".", " ", ""])
      (kwargs.keep_separator.getD true)) lg0
  else if strategy = "semantic" then
    match kwargs.embeddings with
    | some e =>
      constructOr w (.semantic e (kwargs.breakpoint_threshold_type.getD "percentile")
        (kwargs.breakpoint_threshold_amount.getD ⟨"0.95"⟩)) lg0
    | Option.none =>
      constructOr w (.semantic .openAIDefault
        (kwargs.breakpoint_threshold_type.getD "percentile")
        (kwargs.breakpoint_threshold_amount.getD ⟨"0.95"⟩))
        (lg0 ++ [⟨.warning, "semantic_default_embeddings"⟩])
  else if pyStartsWith strategy "code_" then
    match languageMapLookup strategy with
    | some l =>
      constructOr w (.fromLanguage l chunk_size chunk_overlap
        (kwargs.keep_separator.getD true)) lg0
    | Option.none => (.error (.valueErr "unsupported_code_language"), lg0)
  else
    (.error (.valueErr "unknown_strategy"), lg0)

/-- One iteration of the chunk_documents loop.  The semantic branch splits
the raw text and reattaches a deep copy of the original metadata; the other
branch relies on the langchain splitter contract that split_documents
copies the input document's metadata onto every fragment.  Both then set
chunk_id from the source value (default the literal doc), the enumerate
index i and the per-document chunk index; any exception is logged and the
document skipped. -/
def perDocChunks (w : World) (sp : Splitter) (strategy : String) (i : Nat)
    (doc : Document) : List Document × List LogEntry :=
  let md := doc.metadata
  let srcStr := docSourceStr doc
  if strategy = "semantic" then
    match w.splitText sp doc.page_content with
    | .error _ => ([], [⟨.error, "chunk_doc_error"⟩])
    | .ok texts =>
      ((texts.enum).map (fun jt =>
        ⟨jt.2, dictSet md "chunk_id" (.str (mkChunkId srcStr i "semantic" jt.1))⟩),
       [⟨.info, "chunked_doc"⟩])
  else
    match w.splitText sp doc.page_content with
    | .error _ => ([], [⟨.error, "chunk_doc_error"⟩])
    | .ok texts =>
      ((texts.enum).map (fun jt =>
        ⟨jt.2, dictSet md "chunk_id" (.str (mkChunkId srcStr i strategy jt.1))⟩),
       [⟨.info, "chunked_doc"⟩])

/-- The enumerated for-loop of chunk_documents. -/
def chunkLoop (w : World) (sp : Splitter) (strategy : String) :
    Nat → List Document → List Document × List LogEntry
  | _, [] => ([], [])
  | i, doc :: rest =>
    let pd := perDocChunks w sp strategy i doc
    let pr := chunkLoop w sp strategy (i + 1) rest
    (pd.1 ++ pr.1, pd.2 ++ pr.2)

/-- chunkers.py chunk_documents: empty input short-circuits with a warning;
splitter construction sits in a try that catches only ValueError, logging
and returning an empty list for the whole call; per-document failures are
caught inside the loop. -/
def chunk_documents (w : World) (documents : List Document) (strategy : String)
    (chunk_size chunk_overlap : Int) (splitter_kwargs : SplitterKwargs) :
    Except PyErr (List Document) × List LogEntry :=
  if documents.isEmpty then
    (.ok [], [⟨.warning, "empty_documents"⟩])
  else
    match get_text_splitter w strategy chunk_size chunk_overlap splitter_kwargs with
    | (.error (.valueErr _), lg) => (.ok [], lg ++ [⟨.error, "splitter_construction_failed"⟩])
    | (.error e, lg) => (.error e, lg)
    | (.ok sp, lg) =>
      let lp := chunkLoop w sp strategy 0 documents
      (.ok lp.1, lg ++ lp.2 ++ [⟨.info, "chunk_totals"⟩])

/-! Embedding of parsers.py. -/

/-- Per-element transformation of parse_file_to_elements: category and
element_id are pushed into the metadata dict, the text is whitespace
cleaned, and a table element with an HTML form is converted to markdown
when markdownify is available (conversion failure or a missing library
falls back to the cleaned text with a warning).  The text_as_html value is
a string or absent in unstructured metadata; a non-string value is treated
as absent. -/
def parseElement (w : World) (infer_table_structure : Bool) (el : RawElement) :
    Document × List LogEntry :=
  let md0 := dictSet (dictSet el.metadataDict "category" (.str el.category))
    "element_id" (.str el.elemId)
  let content0 := w.cleanWhitespace el.text
  let tbl : String × List LogEntry :=
    if el.category = "Table" ∧ infer_table_structure then
      match dictGet md0 "text_as_html" with
      | some (.str html) =>
        if html = "" then (content0, [])
        else if w.hasMarkdownify then
          match w.htmlToMarkdown html with
          | .ok mdText => (mdText, [])
          | .error _ => (content0, [⟨.warning, "table_html_conversion_failed"⟩])
        else (content0, [⟨.warning, "markdownify_missing"⟩])
      | _ => (content0, [])
    else (content0, [])
  let imgLog : List LogEntry :=
    if el.category = "Image" then [⟨.debug, "image_element"⟩] else []
  (⟨tbl.1, md0⟩, tbl.2 ++ imgLog)

/-- parsers.py parse_file_to_elements: a missing file logs an error and
returns an empty list; partition failure is caught by the catch-all except,
logged, and yields an empty list, so the function never raises. -/
def parse_file_to_elements (w : World) (file_path strategy : String)
    (infer_table_structure extract_images_in_pdf : Bool) :
    List Document × List LogEntry :=
  if w.pathExists file_path = false then
    ([], [⟨.error, "parse_file_not_found"⟩])
  else
    let lg0 : List LogEntry := [⟨.info, "parsing_file"⟩]
    let opts : PartitionOpts := ⟨strategy, infer_table_structure, extract_images_in_pdf⟩
    match w.partitionCall file_path opts with
    | .error _ => ([], lg0 ++ [⟨.error, "parse_error"⟩])
    | .ok els =>
      let parsed := els.map (parseElement w infer_table_structure)
      (parsed.map (·.1), lg0 ++ (parsed.map (·.2)).flatten ++ [⟨.info, "parsed_count"⟩])

/-- parsers.py elements_to_langchain_docs: element dicts become Documents
field for field. -/
def elements_to_langchain_docs (elements_data : List Document) : List Document :=
  elements_data.map (fun el => ⟨el.page_content, el.metadata⟩)

/-! Embedding of main.py. -/

/-- os.path.dirname on a posix path: the part before the last slash,
right-stripped of slashes unless it is nothing but slashes. -/
def dirnameChars (cs : List Char) : List Char :=
  if cs.contains '/' then
    let afterSlash := (cs.reverse.takeWhile (fun c => c ≠ '/')).reverse
    let head := cs.take (cs.length - afterSlash.length)
    if head.all (fun c => c = '/') then head
    else (head.reverse.dropWhile (fun c => c = '/')).reverse
  else []

/-- os.path.dirname on a string path. -/
def pyDirname (p : String) : String := String.mk (dirnameChars p.data)

/-- The isinstance test of main.py line 99: is the value of type
str, int, float, bool, list, dict or NoneType (a shallow, top-level test)? -/
def topSerializableType : MetaVal → Bool
  | .other _ => false
  | _ => true

/-- main.py line 99: a metadata value whose top-level type is not
serializable is replaced by its str(); every other value is kept as is. -/
def coerceValue (v : MetaVal) : MetaVal :=
  if topSerializableType v then v else .str (pyStr v)

/-- One entry of the serializable_docs array built in main.py. -/
structure SerDoc where
  page_content : String
  metadata : List (String × MetaVal)

/-- main.py lines 96-105: page_content is kept and every metadata value is
passed through the shallow coercion. -/
def serializeDoc (d : Document) : SerDoc :=
  ⟨d.page_content, d.metadata.map (fun kv => (kv.1, coerceValue kv.2))⟩

mutual

/-- Modelled from the spec: recursive JSON-serializability of a metadata
value, the property json.dump itself requires of what it is given.  This is
the specification-side notion used to compare the claims about coercion
with the source's shallow type test; it is not part of the source. -/
def jsonSerializable : MetaVal → Bool
  | .str _ => true
  | .int _ => true
  | .float _ => true
  | .bool _ => true
  | .none => true
  | .other _ => false
  | .list xs => jsonSerializableList xs
  | .dict kvs => jsonSerializableKV kvs

/-- All elements of a list are JSON-serializable. -/
def jsonSerializableList : List MetaVal → Bool
  | [] => true
  | v :: rest => jsonSerializable v && jsonSerializableList rest

/-- All values of a dict are JSON-serializable. -/
def jsonSerializableKV : List (String × MetaVal) → Bool
  | [] => true
  | kv :: rest => jsonSerializable kv.2 && jsonSerializableKV rest

end

/-- The one file write of main.py: the open/json.dump call with its
parameters as passed at the call site. -/
structure WriteRec where
  path : String
  docs : List SerDoc
  ensure_ascii : Bool
  indent : Nat
  encoding : String

/-- The observable effects of one process_and_save_to_json call: the
os.makedirs calls, the file write if any, and the log stream.  The function
itself always returns normally: its body is wrapped in a catch-all except. -/
structure SaveOutcome where
  mkdirCalls : List String
  write : Option WriteRec
  logs : List LogEntry

/-- The loader_params entry of additional_params: keyword overrides for the
loader call; absent entries fall back to the callee defaults. -/
structure LoaderParams where
  glob_pattern : Option String
  loader_cls : Option LoaderCls
  loader_kwargs : Option LoaderKwargs
  use_multithreading : Option Bool
  show_progress : Option Bool
  silent_errors : Option Bool

/-- The parser_params entry of additional_params. -/
structure ParserParams where
  strategy : Option String
  infer_table_structure : Option Bool
  extract_images_in_pdf : Option Bool

/-- additional_params of process_and_save_to_json. -/
structure AdditionalParams where
  loader_params : LoaderParams
  chunker_params : SplitterKwargs
  parser_params : ParserParams

def emptyLoaderParams : LoaderParams :=
  ⟨Option.none, Option.none, Option.none, Option.none, Option.none, Option.none⟩

def emptyParserParams : ParserParams := ⟨Option.none, Option.none, Option.none⟩

def emptyAdditionalParams : AdditionalParams :=
  ⟨emptyLoaderParams, emptySplitterKwargs, emptyParserParams⟩

/-- Steps 1 and 2 of process_and_save_to_json: the documents the selected
pipeline produces, before serialization.  Only called for the three known
process types; the final branch is a placeholder never reached from
process_and_save_to_json. -/
def pipelineResult (w : World) (input_path process_type chunk_strategy : String)
    (chunk_size chunk_overlap : Int) (is_directory recursive : Bool)
    (ap : AdditionalParams) : Except PyErr (List Document) × List LogEntry :=
  if process_type = "load_only" ∨ process_type = "load_and_chunk" then
    let lp := ap.loader_params
    let kw := lp.loader_kwargs.getD ⟨Option.none⟩
    let first : Except PyErr (List Document) × List LogEntry :=
      if is_directory then
        let r := load_directory w input_path (lp.glob_pattern.getD "**/[!.]*")
          lp.loader_cls kw recursive (lp.use_multithreading.getD true)
          (lp.show_progress.getD true) (lp.silent_errors.getD true)
        (.ok r.1, ⟨.info, "loading_directory"⟩ :: r.2)
      else
        let r := load_single_file w (some input_path) lp.loader_cls kw
        (r.1, ⟨.info, "loading_single_file"⟩ :: r.2)
    match first with
    | (.error e, lg) => (.error e, lg)
    | (.ok ds, lg) =>
      if process_type = "load_and_chunk" ∧ ¬ ds.isEmpty then
        let r := chunk_documents w ds chunk_strategy chunk_size chunk_overlap
          ap.chunker_params
        (r.1, lg ++ ⟨.info, "chunking"⟩ :: r.2)
      else (.ok ds, lg)
  else if process_type = "parse" then
    let pp := ap.parser_params
    let r := parse_file_to_elements w input_path (pp.strategy.getD "auto")
      (pp.infer_table_structure.getD true) (pp.extract_images_in_pdf.getD false)
    let ds := if ¬ r.1.isEmpty then elements_to_langchain_docs r.1 else []
    (.ok ds, ⟨.info, "parsing"⟩ :: r.2)
  else (.ok [], [])

/-- Step 3 of process_and_save_to_json: a nonempty document list creates
the parent directory of the absolute output path and writes the serialized
array with ensure_ascii False, indent 2, encoding utf-8; an empty list only
logs a warning; an escaped exception reaches the catch-all except, which
logs it, so nothing is written and nothing is raised. -/
def finishSave (w : World) (output_path : String)
    (r : Except PyErr (List Document)) (lg : List LogEntry) : SaveOutcome :=
  match r with
  | .error _ => ⟨[], Option.none, lg ++ [⟨.error, "processing_error"⟩]⟩
  | .ok ds =>
    if ¬ ds.isEmpty then
      ⟨[pyDirname (w.abspath output_path)],
       some ⟨output_path, ds.map serializeDoc, false, 2, "utf-8"⟩,
       lg ++ [⟨.info, "saved"⟩]⟩
    else
      ⟨[], Option.none, lg ++ [⟨.warning, "nothing_to_save"⟩]⟩

/-- main.py process_and_save_to_json: dispatch on process_type, an unknown
type logs an error and returns with no output, otherwise the pipeline runs
and its result is saved. -/
def process_and_save_to_json (w : World)
    (input_path output_path process_type chunk_strategy : String)
    (chunk_size chunk_overlap : Int) (is_directory recursive : Bool)
    (ap : AdditionalParams) : SaveOutcome :=
  if process_type = "load_only" ∨ process_type = "load_and_chunk" ∨
      process_type = "parse" then
    let r := pipelineResult w input_path process_type chunk_strategy chunk_size
      chunk_overlap is_directory recursive ap
    finishSave w output_path r.1 r.2
  else
    ⟨[], Option.none, [⟨.error, "unknown_process_type"⟩]⟩

/-! Accessors and concrete sample worlds used by the claim theorems and
their witnesses. -/

/-- The chunk_size argument a splitter constructor received, if any. -/
def Splitter.chunkSizeArg : Splitter → Option Int
  | .character cs _ _ _ => some cs
  | .recursive cs _ _ _ => some cs
  | .fromLanguage _ cs _ _ => some cs
  | .semantic _ _ _ => Option.none

/-- The chunk_overlap argument a splitter constructor received, if any. -/
def Splitter.chunkOverlapArg : Splitter → Option Int
  | .character _ co _ _ => some co
  | .recursive _ co _ _ => some co
  | .fromLanguage _ _ co _ => some co
  | .semantic _ _ _ => Option.none

/-- The loader class load_single_file ends up using: the explicit one, or
the one resolved from the extension. -/
def resolvedOf (p : String) (cls : Option LoaderCls) : LoaderCls :=
  match cls with
  | some c => c
  | Option.none => (resolveLoader p).1

/-- A world in which nothing exists and every oracle is trivial. -/
def W0 : World where
  pathExists := fun _ => false
  isDir := fun _ => false
  isFile := fun _ => false
  globFiles := fun _ _ => []
  loaderLoad := fun _ _ _ => .ok []
  constructSplitter := fun _ => Option.none
  splitText := fun _ _ => .ok []
  partitionCall := fun _ _ => .ok []
  cleanWhitespace := fun s => s
  hasMarkdownify := false
  htmlToMarkdown := fun _ => .ok ""
  abspath := fun s => s

/-- The raw document the loader yields for the readable file of WDir. -/
def goodRawDoc : Document := ⟨"hello", []⟩

/-- The same document after load_single_file stitched in its source. -/
def goodLoadedDoc : Document := ⟨"hello", [("source", .str "d/good.txt")]⟩

/-- A directory d with one unreadable file and one readable file: loading
d/bad.txt raises inside the loader, loading d/good.txt yields one document
without a source key. -/
def WDir : World :=
  { W0 with
    pathExists := fun p => p = "d" || p = "d/bad.txt" || p = "d/good.txt"
    isDir := fun p => p = "d"
    isFile := fun p => p = "d/bad.txt" || p = "d/good.txt"
    globFiles := fun pat _ =>
      if pat = "d/**/[!.]*" then ["d/bad.txt", "d/good.txt"] else []
    loaderLoad := fun _ fp _ =>
      if fp = some "d/bad.txt" then .error (.exc "unreadable")
      else if fp = some "d/good.txt" then .ok [goodRawDoc]
      else .ok [] }

/-- A world with one text file whose loader returns two documents, one that
already carries a source value and one that does not. -/
def WSrc : World :=
  { W0 with
    pathExists := fun p => p = "x.txt"
    isFile := fun p => p = "x.txt"
    loaderLoad := fun _ fp _ =>
      if fp = some "x.txt" then
        .ok [⟨"a", [("source", .str "orig")]⟩, ⟨"b", []⟩]
      else .ok [] }

/-- A chunking world: construction always succeeds, and splitting fails
exactly on the text bad, otherwise returning the text unchanged as the
single chunk. -/
def WSplit : World :=
  { W0 with
    splitText := fun _ t =>
      if t = "bad" then .error (.exc "split failure") else .ok [t] }

/-- A chunking world in which every splitter constructor raises. -/
def WNoConstr : World :=
  { W0 with constructSplitter := fun _ => some "constructor refused" }

/-- A document whose metadata holds a list containing a non-serializable
object: the shallow isinstance test of main.py lets it through. -/
def nestedBadDoc : Document :=
  ⟨"text", [("source", .str "in.txt"), ("k", .list [.other "obj"])]⟩

/-- A world with one loadable file whose document carries the nested
non-serializable metadata value. -/
def WNested : World :=
  { W0 with
    pathExists := fun p => p = "in.txt"
    isFile := fun p => p = "in.txt"
    loaderLoad := fun _ fp _ =>
      if fp = some "in.txt" then .ok [nestedBadDoc] else .ok [] }

/-- Three documents for the chunking witnesses; the middle one fails to
split in WSplit. -/
def docsThree : List Document :=
  [⟨"alpha", [("source", .str "s.txt")]⟩,
   ⟨"bad", [("source", .str "s.txt")]⟩,
   ⟨"omega", [("source", .str "t.txt")]⟩]
/-! Library lemmas about the embedded dict operations and about the
decimal numerals inside chunk identifiers. -/

theorem dictGet_map_replace (d : List (String × MetaVal)) (k : String) (v : MetaVal) :
    dictMem d k = true →
    dictGet (d.map (fun kv => if kv.1 = k then (k, v) else kv)) k = some v := by
  induction d with
  | nil => simp [dictMem]
  | cons hd tl ih =>
    intro hmem
    by_cases hhd : hd.1 = k
    · simp [dictGet, hhd]
    · simp only [dictMem, List.map_cons] at *
      simp only [hhd, if_false, decide_eq_true_eq] at hmem ⊢
      rw [dictGet, if_neg hhd]
      exact ih (by simpa [hhd] using hmem)

theorem dictGet_append_last (d : List (String × MetaVal)) (k : String) (v : MetaVal) :
    dictMem d k = false → dictGet (d ++ [(k, v)]) k = some v := by
  induction d with
  | nil => simp [dictGet]
  | cons hd tl ih =>
    intro hmem
    simp only [dictMem, Bool.or_eq_false_iff, decide_eq_false_iff_not] at hmem
    rw [List.cons_append, dictGet, if_neg hmem.1]
    exact ih hmem.2

theorem dictGet_dictSet_self (d : List (String × MetaVal)) (k : String) (v : MetaVal) :
    dictGet (dictSet d k v) k = some v := by
  unfold dictSet
  by_cases h : dictMem d k
  · rw [if_pos h]; exact dictGet_map_replace d k v h
  · rw [if_neg h]; exact dictGet_append_last d k v (by simpa using h)

theorem dictGet_map_replace_ne (d : List (String × MetaVal)) (k k' : String) (v : MetaVal)
    (h : k' ≠ k) :
    dictGet (d.map (fun kv => if kv.1 = k then (k, v) else kv)) k' = dictGet d k' := by
  induction d with
  | nil => rfl
  | cons hd tl ih =>
    by_cases hhd : hd.1 = k
    · rw [List.map_cons, if_pos hhd, dictGet, dictGet, if_neg (fun hc => h hc.symm),
        if_neg (by rw [hhd]; exact fun hc => h hc.symm)]
      exact ih
    · rw [List.map_cons, if_neg hhd, dictGet, dictGet]
      by_cases h2 : hd.1 = k'
      · rw [if_pos h2, if_pos h2]
      · rw [if_neg h2, if_neg h2]; exact ih

theorem dictGet_append_last_ne (d : List (String × MetaVal)) (k k' : String) (v : MetaVal)
    (h : k' ≠ k) : dictGet (d ++ [(k, v)]) k' = dictGet d k' := by
  induction d with
  | nil =>
    simp only [List.nil_append, dictGet, if_neg (fun hc : k = k' => h hc.symm)]
  | cons hd tl ih =>
    rw [List.cons_append, dictGet, dictGet]
    by_cases h2 : hd.1 = k'
    · rw [if_pos h2, if_pos h2]
    · rw [if_neg h2, if_neg h2]; exact ih

theorem dictGet_dictSet_ne (d : List (String × MetaVal)) (k k' : String) (v : MetaVal)
    (h : k' ≠ k) : dictGet (dictSet d k v) k' = dictGet d k' := by
  unfold dictSet
  by_cases hm : dictMem d k
  · rw [if_pos hm]; exact dictGet_map_replace_ne d k k' v h
  · rw [if_neg hm]; exact dictGet_append_last_ne d k k' v h

theorem digitChar_isDigit : ∀ d, d < 10 → (digitChar d).isDigit = true := by decide

theorem digitChar_inj : ∀ a, a < 10 → ∀ b, b < 10 → digitChar a = digitChar b → a = b := by
  decide

theorem natToDec_eq (n : Nat) :
    natToDec n = if n < 10 then [digitChar n]
      else natToDec (n / 10) ++ [digitChar (n % 10)] := by
  rw [natToDec]
  split <;> rfl

theorem natToDec_ne_nil (n : Nat) : natToDec n ≠ [] := by
  rw [natToDec]
  split
  · simp
  · simp

theorem natToDec_digits (n : Nat) : ∀ c ∈ natToDec n, c.isDigit = true := by
  induction n using Nat.strong_induction_on with
  | _ n ih =>
    rw [natToDec]
    split
    · intro c hc
      rw [List.mem_singleton] at hc
      subst hc
      exact digitChar_isDigit n (by omega)
    · intro c hc
      rcases List.mem_append.mp hc with h1 | h2
      · exact ih (n / 10) (Nat.div_lt_self (by omega) (by omega)) c h1
      · rw [List.mem_singleton] at h2
        subst h2
        exact digitChar_isDigit (n % 10) (Nat.mod_lt n (by omega))

theorem natToDec_inj : ∀ n m, natToDec n = natToDec m → n = m := by
  intro n
  induction n using Nat.strong_induction_on with
  | _ n ih =>
    intro m h
    by_cases hn : n < 10 <;> by_cases hm : m < 10
    · rw [natToDec_eq n, if_pos hn, natToDec_eq m, if_pos hm, List.cons.injEq] at h
      exact digitChar_inj n hn m hm h.1
    · rw [natToDec_eq n, if_pos hn, natToDec_eq m, if_neg hm] at h
      have hl := congrArg List.length h
      rw [List.length_append, List.length_singleton, List.length_singleton] at hl
      have hpos : 0 < (natToDec (m / 10)).length :=
        List.length_pos.mpr (natToDec_ne_nil (m / 10))
      omega
    · rw [natToDec_eq n, if_neg hn, natToDec_eq m, if_pos hm] at h
      have hl := congrArg List.length h
      rw [List.length_append, List.length_singleton, List.length_singleton] at hl
      have hpos : 0 < (natToDec (n / 10)).length :=
        List.length_pos.mpr (natToDec_ne_nil (n / 10))
      omega
    · rw [natToDec_eq n, if_neg hn, natToDec_eq m, if_neg hm] at h
      have hlen : ([digitChar (n % 10)] : List Char).length = [digitChar (m % 10)].length := by
        simp
      obtain ⟨h1, h2⟩ := List.append_inj' h hlen
      have hmod : n % 10 = m % 10 := by
        rw [List.cons.injEq] at h2
        exact digitChar_inj _ (Nat.mod_lt n (by omega)) _ (Nat.mod_lt m (by omega)) h2.1
      have hdiv : n / 10 = m / 10 :=
        ih (n / 10) (Nat.div_lt_self (by omega) (by omega)) (m / 10) h1
      have e1 := Nat.div_add_mod n 10
      have e2 := Nat.div_add_mod m 10
      omega

theorem underscore_not_digit : ('_').isDigit = false := by decide

/-- In a list of the form a ++ underscore :: x where a is all digits, the
digit run a and the remainder x are uniquely determined. -/
theorem digits_prefix_sep :
    ∀ (a b x y : List Char), (∀ c ∈ a, c.isDigit = true) → (∀ c ∈ b, c.isDigit = true) →
      a ++ '_' :: x = b ++ '_' :: y → a = b ∧ x = y := by
  intro a
  induction a with
  | nil =>
    intro b x y _ hb h
    cases b with
    | nil => simpa using h
    | cons c b' =>
      rw [List.nil_append, List.cons_append, List.cons.injEq] at h
      have : ('_').isDigit = true := h.1 ▸ hb c (List.mem_cons_self c b')
      rw [underscore_not_digit] at this
      exact absurd this (by simp)
  | cons c a' ih =>
    intro b x y ha hb h
    cases b with
    | nil =>
      rw [List.nil_append, List.cons_append, List.cons.injEq] at h
      have : ('_').isDigit = true := h.1 ▸ ha c (List.mem_cons_self c a')
      rw [underscore_not_digit] at this
      exact absurd this (by simp)
    | cons c2 b' =>
      rw [List.cons_append, List.cons_append, List.cons.injEq] at h
      obtain ⟨hab, hxy⟩ := ih b' x y (fun d hd => ha d (List.mem_cons_of_mem c hd))
        (fun d hd => hb d (List.mem_cons_of_mem c2 hd)) h.2
      exact ⟨by rw [h.1, hab], hxy⟩

/-- Mirror image of digits_prefix_sep: a trailing digit run after an
underscore is uniquely determined. -/
theorem digits_suffix_sep (x y a b : List Char)
    (ha : ∀ c ∈ a, c.isDigit = true) (hb : ∀ c ∈ b, c.isDigit = true)
    (h : x ++ '_' :: a = y ++ '_' :: b) : x = y ∧ a = b := by
  have hrev : a.reverse ++ '_' :: x.reverse = b.reverse ++ '_' :: y.reverse := by
    have := congrArg List.reverse h
    simpa [List.reverse_append, List.append_assoc] using this
  obtain ⟨h1, h2⟩ := digits_prefix_sep a.reverse b.reverse x.reverse y.reverse
    (fun c hc => ha c (List.mem_reverse.mp hc))
    (fun c hc => hb c (List.mem_reverse.mp hc)) hrev
  exact ⟨List.reverse_injective h2, List.reverse_injective h1⟩

/-- Within one call the strategy is fixed, and the chunk identifier then
determines the source string, the document index and the chunk index:
the two indices are canonical decimal numerals preceded by an underscore,
so they are the maximal digit runs at their positions no matter what
underscores or digits the source or strategy contain. -/
theorem mkChunkId_inj (s1 s2 strat : String) (i1 i2 j1 j2 : Nat)
    (h : mkChunkId s1 i1 strat j1 = mkChunkId s2 i2 strat j2) :
    s1 = s2 ∧ i1 = i2 ∧ j1 = j2 := by
  have hd := congrArg String.data h
  simp only [mkChunkId, natStr, String.data_append] at hd
  have h1 : (s1.data ++ '_' :: (natToDec i1 ++ '_' :: strat.data)) ++ '_' :: natToDec j1 =
      (s2.data ++ '_' :: (natToDec i2 ++ '_' :: strat.data)) ++ '_' :: natToDec j2 := by
    simpa [List.append_assoc] using hd
  obtain ⟨h2, hj⟩ := digits_suffix_sep _ _ _ _ (natToDec_digits j1) (natToDec_digits j2) h1
  have hjeq : j1 = j2 := natToDec_inj _ _ hj
  have h3 : (s1.data ++ '_' :: natToDec i1) ++ '_' :: strat.data =
      (s2.data ++ '_' :: natToDec i2) ++ '_' :: strat.data := by
    simpa [List.append_assoc] using h2
  obtain ⟨h4, _⟩ := List.append_inj' h3 rfl
  obtain ⟨h5, hi⟩ := digits_suffix_sep _ _ _ _ (natToDec_digits i1) (natToDec_digits i2) h4
  exact ⟨String.ext h5, natToDec_inj _ _ hi, hjeq⟩

/-! Well-formedness of the sample worlds. -/

theorem W0_wf : W0.Wf :=
  ⟨fun p h => by simp [W0] at h, fun p h => by simp [W0] at h, rfl⟩

theorem WDir_wf : WDir.Wf := by
  refine ⟨?_, ?_, rfl⟩
  · intro p h
    simp only [WDir, W0] at h ⊢
    simp only [decide_eq_true_eq] at h
    simp [h]
  · intro p h
    simp only [WDir, W0] at h ⊢
    rcases (by simpa using h : p = "d/bad.txt" ∨ p = "d/good.txt") with h' | h' <;>
      simp [h']

theorem WSrc_wf : WSrc.Wf := by
  refine ⟨?_, ?_, rfl⟩
  · intro p h
    simp [WSrc, W0] at h
  · intro p h
    exact h

theorem dictMem_eq_isSome_dictGet (d : List (String × MetaVal)) (k : String) :
    dictMem d k = (dictGet d k).isSome := by
  induction d with
  | nil => rfl
  | cons hd tl ih =>
    rw [dictMem, dictGet]
    by_cases h : hd.1 = k
    · simp [h]
    · simp [h, ih]

/-- C2: for every path absent from the filesystem, load_single_file logs an
error and returns ok with an empty list, load_directory logs an error and
returns an empty list, and parse_file_to_elements logs an error and returns
an empty list; none of the three lets an exception escape (the two total
functions by their type, load_single_file by returning ok). -/
theorem missing_path_logs_and_returns_empty (w : World) (hw : w.Wf) (p : String)
    (hne : w.pathExists p = false) (cls cls2 : Option LoaderCls)
    (kw kw2 : LoaderKwargs) (gp strat : String) (r mt sp se it im : Bool) :
    load_single_file w (some p) cls kw = (.ok [], [⟨.error, "file_not_found"⟩]) ∧
    load_directory w p gp cls2 kw2 r mt sp se = ([], [⟨.error, "dir_not_found"⟩]) ∧
    parse_file_to_elements w p strat it im = ([], [⟨.error, "parse_file_not_found"⟩]) := by
  have hdir : w.isDir p = false := by
    cases hid : w.isDir p
    · rfl
    · rw [hw.isDir_exists p hid] at hne
      exact absurd hne (by simp)
  refine ⟨?_, ?_, ?_⟩
  · simp [load_single_file, hne]
  · simp [load_directory, hdir]
  · simp [parse_file_to_elements, hne]

/-- Witness for missing_path_logs_and_returns_empty: the empty world and a
concrete path. -/
theorem missing_path_logs_and_returns_empty_witness :
    load_single_file W0 (some "nothing/here.txt") Option.none ⟨Option.none⟩ =
      (.ok [], [⟨.error, "file_not_found"⟩]) ∧
    load_directory W0 "nothing/here.txt" "**/[!.]*" Option.none ⟨Option.none⟩
      true true true true = ([], [⟨.error, "dir_not_found"⟩]) ∧
    parse_file_to_elements W0 "nothing/here.txt" "auto" true false =
      ([], [⟨.error, "parse_file_not_found"⟩]) :=
  missing_path_logs_and_returns_empty W0 W0_wf "nothing/here.txt" rfl
    Option.none Option.none ⟨Option.none⟩ ⟨Option.none⟩ "**/[!.]*" "auto"
    true true true true true false

/-- C1 evidence (code_bug): over the directory d of WDir, holding the
unreadable d/bad.txt and the readable d/good.txt, load_directory returns
exactly the good file's document in silent mode; and in strict mode
(silent_errors False, documented by the source to re-raise) it behaves
identically, returning the good file's document and raising nothing,
because load_single_file swallows the per-file exception before the strict
branch can see it (and the outer catch-all of load_directory would swallow
a raise anyway).  The per-file error is still logged in strict mode. -/
theorem load_directory_strict_mode_is_dead :
    (load_directory WDir "d" "**/[!.]*" Option.none ⟨Option.none⟩
      true true true true).1 = [goodLoadedDoc] ∧
    (load_directory WDir "d" "**/[!.]*" Option.none ⟨Option.none⟩
      true true true false).1 = [goodLoadedDoc] ∧
    LogEntry.mk .error "load_file_error" ∈
      (load_directory WDir "d" "**/[!.]*" Option.none ⟨Option.none⟩
        true true true false).2 :=
  ⟨rfl, rfl, by decide⟩

/-- C6: with no explicit loader class, load_single_file selects the loader
by the lowercased splitext extension through DEFAULT_LOADERS, with
UnstructuredLoader as the fallback for unmapped extensions; the final
clause ties the resolution into load_single_file for every existing file. -/
theorem extension_table_selection (p : String) :
    (extLower p = ".txt" → (resolveLoader p).1 = .textLoader) ∧
    (extLower p = ".pdf" → (resolveLoader p).1 = .pyPDFLoader) ∧
    (extLower p = ".md" → (resolveLoader p).1 = .unstructuredMarkdownLoader) ∧
    (extLower p = ".csv" → (resolveLoader p).1 = .csvLoader) ∧
    (extLower p = ".docx" → (resolveLoader p).1 = .docx2txtLoader) ∧
    (extLower p = ".pptx" → (resolveLoader p).1 = .unstructuredPowerPointLoader) ∧
    (extLower p = ".eml" → (resolveLoader p).1 = .unstructuredEmailLoader) ∧
    (extLower p = ".py" → (resolveLoader p).1 = .textLoader) ∧
    (extLower p ∉ [".txt", ".pdf", ".md", ".csv", ".docx", ".pptx", ".eml", ".py"] →
      (resolveLoader p).1 = .unstructuredLoader) ∧
    (∀ w : World, w.pathExists p = true → ∀ kw,
      load_single_file w (some p) Option.none kw =
        loadWithResolved w p (resolveLoader p).1 kw (resolveLoader p).2) := by
  refine ⟨?_, ?_, ?_, ?_, ?_, ?_, ?_, ?_, ?_, ?_⟩
  · intro h; simp only [resolveLoader, h]; rfl
  · intro h; simp only [resolveLoader, h]; rfl
  · intro h; simp only [resolveLoader, h]; rfl
  · intro h; simp only [resolveLoader, h]; rfl
  · intro h; simp only [resolveLoader, h]; rfl
  · intro h; simp only [resolveLoader, h]; rfl
  · intro h; simp only [resolveLoader, h]; rfl
  · intro h; simp only [resolveLoader, h]; rfl
  · intro hnot
    simp only [List.mem_cons, List.not_mem_nil, or_false] at hnot
    push_neg at hnot
    obtain ⟨h1, h2, h3, h4, h5, h6, h7, h8⟩ := hnot
    have hlk : lookupDefaultLoader DEFAULT_LOADERS (extLower p) = Option.none := by
      simp only [DEFAULT_LOADERS, lookupDefaultLoader]
      rw [if_neg (fun hc => h1 hc.symm), if_neg (fun hc => h2 hc.symm),
        if_neg (fun hc => h3 hc.symm), if_neg (fun hc => h4 hc.symm),
        if_neg (fun hc => h5 hc.symm), if_neg (fun hc => h6 hc.symm),
        if_neg (fun hc => h7 hc.symm), if_neg (fun hc => h8 hc.symm)]
    simp only [resolveLoader, hlk]
  · intro w hex kw
    simp only [load_single_file, hex]
    rfl

/-- Witness for extension_table_selection: a mapped upper-case extension,
an unmapped extension, and the tie-in at the existing file of WSrc. -/
theorem extension_table_selection_witness :
    ((resolveLoader "report.TXT").1 = .textLoader) ∧
    ((resolveLoader "archive.xyz").1 = .unstructuredLoader) ∧
    (load_single_file WSrc (some "x.txt") Option.none ⟨Option.none⟩ =
      loadWithResolved WSrc "x.txt" (resolveLoader "x.txt").1 ⟨Option.none⟩
        (resolveLoader "x.txt").2) :=
  ⟨(extension_table_selection "report.TXT").1 (by decide),
   (extension_table_selection "archive.xyz").2.2.2.2.2.2.2.2.1 (by decide),
   (extension_table_selection "x.txt").2.2.2.2.2.2.2.2.2 WSrc rfl ⟨Option.none⟩⟩

/-! Lemmas about the source stitching of load_single_file. -/

theorem applySource_ok_total (fp : Option String) (kwPaths : Option (List String))
    (v : MetaVal) (hv : sourceValue fp kwPaths = .ok v) :
    ∀ raws, ∃ docs, applySource fp kwPaths raws = .ok docs := by
  intro raws
  induction raws with
  | nil => exact ⟨[], rfl⟩
  | cons r rest ih =>
    obtain ⟨docs, hdocs⟩ := ih
    by_cases hmem : dictMem r.metadata "source"
    · refine ⟨r :: docs, ?_⟩
      simp only [applySource, if_pos hmem, hdocs]
    · refine ⟨⟨r.page_content, dictSet r.metadata "source" v⟩ :: docs, ?_⟩
      simp only [applySource, if_neg hmem, hv, hdocs]

theorem applySource_ok_spec (fp : Option String) (kwPaths : Option (List String))
    (v : MetaVal) (hv : sourceValue fp kwPaths = .ok v) :
    ∀ raws docs, applySource fp kwPaths raws = .ok docs →
      docs.length = raws.length ∧
      ∀ i (hd : i < docs.length) (hr : i < raws.length),
        (dictMem (raws.get ⟨i, hr⟩).metadata "source" = true →
          docs.get ⟨i, hd⟩ = raws.get ⟨i, hr⟩) ∧
        (dictMem (raws.get ⟨i, hr⟩).metadata "source" = false →
          (docs.get ⟨i, hd⟩).page_content = (raws.get ⟨i, hr⟩).page_content ∧
          (docs.get ⟨i, hd⟩).metadata =
            dictSet (raws.get ⟨i, hr⟩).metadata "source" v) := by
  intro raws
  induction raws with
  | nil =>
    intro docs h
    simp only [applySource] at h
    obtain rfl : ([] : List Document) = docs := by
      simpa using h
    exact ⟨rfl, fun i hd hr => absurd hr (by simp)⟩
  | cons r rest ih =>
    intro docs h
    by_cases hmem : dictMem r.metadata "source"
    · simp only [applySource, if_pos hmem] at h
      cases hrest : applySource fp kwPaths rest with
      | error e => rw [hrest] at h; exact absurd h (by simp)
      | ok rest2 =>
        rw [hrest] at h
        obtain rfl : r :: rest2 = docs := by simpa using h
        obtain ⟨hlen, hspec⟩ := ih rest2 hrest
        refine ⟨by simpa using hlen, ?_⟩
        intro i hd hr
        cases i with
        | zero =>
          refine ⟨fun _ => rfl, fun hfalse => ?_⟩
          rw [show (r :: rest).get ⟨0, hr⟩ = r from rfl] at hfalse
          rw [hmem] at hfalse
          exact absurd hfalse (by simp)
        | succ n =>
          exact hspec n (Nat.lt_of_succ_lt_succ hd) (Nat.lt_of_succ_lt_succ hr)
    · simp only [applySource, if_neg hmem, hv] at h
      cases hrest : applySource fp kwPaths rest with
      | error e => rw [hrest] at h; exact absurd h (by simp)
      | ok rest2 =>
        rw [hrest] at h
        obtain rfl : (⟨r.page_content, dictSet r.metadata "source" v⟩ : Document) :: rest2
            = docs := by simpa using h
        obtain ⟨hlen, hspec⟩ := ih rest2 hrest
        refine ⟨by simpa using hlen, ?_⟩
        intro i hd hr
        cases i with
        | zero =>
          refine ⟨fun htrue => ?_, fun _ => ⟨rfl, rfl⟩⟩
          rw [show (r :: rest).get ⟨0, hr⟩ = r from rfl] at htrue
          rw [htrue] at hmem
          exact absurd rfl hmem
        | succ n =>
          exact hspec n (Nat.lt_of_succ_lt_succ hd) (Nat.lt_of_succ_lt_succ hr)

theorem applySource_ok_sources (fp : Option String) (kwPaths : Option (List String))
    (v : MetaVal) (hv : sourceValue fp kwPaths = .ok v) :
    ∀ raws docs, applySource fp kwPaths raws = .ok docs →
      ∀ d ∈ docs, (dictGet d.metadata "source").isSome := by
  intro raws
  induction raws with
  | nil =>
    intro docs h d hd
    simp only [applySource] at h
    obtain rfl : ([] : List Document) = docs := by simpa using h
    exact absurd hd (by simp)
  | cons r rest ih =>
    intro docs h d hd
    by_cases hmem : dictMem r.metadata "source"
    · simp only [applySource, if_pos hmem] at h
      cases hrest : applySource fp kwPaths rest with
      | error e => rw [hrest] at h; exact absurd h (by simp)
      | ok rest2 =>
        rw [hrest] at h
        obtain rfl : r :: rest2 = docs := by simpa using h
        rcases List.mem_cons.mp hd with rfl | hd'
        · rw [← dictMem_eq_isSome_dictGet]; exact hmem
        · exact ih rest2 hrest d hd'
    · simp only [applySource, if_neg hmem, hv] at h
      cases hrest : applySource fp kwPaths rest with
      | error e => rw [hrest] at h; exact absurd h (by simp)
      | ok rest2 =>
        rw [hrest] at h
        obtain rfl : (⟨r.page_content, dictSet r.metadata "source" v⟩ : Document) :: rest2
            = docs := by simpa using h
        rcases List.mem_cons.mp hd with rfl | hd'
        · simp [dictGet_dictSet_self]
        · exact ih rest2 hrest d hd'

/-- C7: every successful load_single_file call (one that returns ok)
yields only documents whose metadata has a source key; and relative to the
loader oracle's raw documents, a loader-supplied source leaves the document
completely untouched, while a missing one is set to the input path — in the
WebBaseLoader branch the path is first wrapped into the single-element
web_paths list and the assigned source is that list's first element, which
is again the input path.  Calls with a None path raise TypeError at the
os.path.exists check and are not successful. -/
theorem source_key_postcondition (w : World) (hw : w.Wf) (p : String)
    (cls : Option LoaderCls) (kw : LoaderKwargs) (docs : List Document)
    (h : (load_single_file w (some p) cls kw).1 = .ok docs) :
    (∀ d ∈ docs, (dictGet d.metadata "source").isSome) ∧
    (∀ raws, w.pathExists p = true →
      w.loaderLoad (resolvedOf p cls)
        (if resolvedOf p cls = LoaderCls.webBaseLoader then Option.none else some p)
        (if resolvedOf p cls = LoaderCls.webBaseLoader then ⟨some [p]⟩ else kw) = .ok raws →
      docs.length = raws.length ∧
      ∀ i (hd : i < docs.length) (hr : i < raws.length),
        (dictMem (raws.get ⟨i, hr⟩).metadata "source" = true →
          docs.get ⟨i, hd⟩ = raws.get ⟨i, hr⟩) ∧
        (dictMem (raws.get ⟨i, hr⟩).metadata "source" = false →
          (docs.get ⟨i, hd⟩).page_content = (raws.get ⟨i, hr⟩).page_content ∧
          (docs.get ⟨i, hd⟩).metadata =
            dictSet (raws.get ⟨i, hr⟩).metadata "source" (.str p))) := by
  cases hex : w.pathExists p with
  | false =>
    have hdd : (Except.ok [] : Except PyErr (List Document)) = Except.ok docs := by
      rw [← h]
      simp [load_single_file, hex]
    obtain rfl : ([] : List Document) = docs := by simpa using hdd
    refine ⟨fun d hd => absurd hd (by simp), ?_⟩
    intro raws hex' _
    exact absurd hex' (by simp)
  | true =>
    have hp : p ≠ "" := by
      intro hc
      rw [hc, hw.pathExists_empty] at hex
      exact absurd hex (by simp)
    have hred : (load_single_file w (some p) cls kw).1 =
        (loadWithResolved w p (resolvedOf p cls) kw
          (match cls with | some _ => [] | Option.none => (resolveLoader p).2)).1 := by
      cases cls <;> simp [load_single_file, hex, resolvedOf]
    rw [hred] at h
    by_cases hweb : resolvedOf p cls = LoaderCls.webBaseLoader
    · have hsv : sourceValue Option.none (some [p]) = .ok (.str p) := rfl
      cases hload : w.loaderLoad LoaderCls.webBaseLoader Option.none ⟨some [p]⟩ with
      | error e =>
        have hdd : (Except.ok [] : Except PyErr (List Document)) = Except.ok docs := by
          rw [← h]
          simp [loadWithResolved, hweb, hload]
        obtain rfl : ([] : List Document) = docs := by simpa using hdd
        refine ⟨fun d hd => absurd hd (by simp), ?_⟩
        intro raws _ hraws
        simp [hweb] at hraws
        rw [hload] at hraws
        exact absurd hraws (by simp)
      | ok raws0 =>
        cases happ : applySource Option.none (some [p]) raws0 with
        | error e2 =>
          obtain ⟨docs0, hap⟩ := applySource_ok_total Option.none (some [p]) _ hsv raws0
          rw [hap] at happ
          exact absurd happ (by simp)
        | ok docs2 =>
          have hdd : (Except.ok docs2 : Except PyErr (List Document)) = Except.ok docs := by
            rw [← h]
            simp [loadWithResolved, hweb, hload, happ]
          obtain rfl : docs2 = docs := by simpa using hdd
          refine ⟨applySource_ok_sources Option.none (some [p]) _ hsv raws0 docs2 happ, ?_⟩
          intro raws _ hraws
          simp [hweb] at hraws
          rw [hload] at hraws
          obtain rfl : raws0 = raws := by simpa using hraws
          exact applySource_ok_spec Option.none (some [p]) _ hsv raws0 docs2 happ
    · have hsv : sourceValue (some p) Option.none = .ok (.str p) := by
        simp only [sourceValue, if_neg hp]
      cases hload : w.loaderLoad (resolvedOf p cls) (some p) kw with
      | error e =>
        have hdd : (Except.ok [] : Except PyErr (List Document)) = Except.ok docs := by
          rw [← h]
          simp [loadWithResolved, hweb, hp, hload]
        obtain rfl : ([] : List Document) = docs := by simpa using hdd
        refine ⟨fun d hd => absurd hd (by simp), ?_⟩
        intro raws _ hraws
        simp [hweb] at hraws
        rw [hload] at hraws
        exact absurd hraws (by simp)
      | ok raws0 =>
        cases happ : applySource (some p) Option.none raws0 with
        | error e2 =>
          obtain ⟨docs0, hap⟩ := applySource_ok_total (some p) Option.none _ hsv raws0
          rw [hap] at happ
          exact absurd happ (by simp)
        | ok docs2 =>
          have hdd : (Except.ok docs2 : Except PyErr (List Document)) = Except.ok docs := by
            rw [← h]
            simp [loadWithResolved, hweb, hp, hload, happ]
          obtain rfl : docs2 = docs := by simpa using hdd
          refine ⟨applySource_ok_sources (some p) Option.none _ hsv raws0 docs2 happ, ?_⟩
          intro raws _ hraws
          simp [hweb] at hraws
          rw [hload] at hraws
          obtain rfl : raws0 = raws := by simpa using hraws
          exact applySource_ok_spec (some p) Option.none _ hsv raws0 docs2 happ

/-- Witness for source_key_postcondition: in WSrc the loader returns one
document with a source and one without; both returned documents end up
carrying a source key. -/
theorem source_key_postcondition_witness :
    (dictGet (⟨"a", [("source", .str "orig")]⟩ : Document).metadata "source").isSome :=
  (source_key_postcondition WSrc WSrc_wf "x.txt" Option.none ⟨Option.none⟩
    [⟨"a", [("source", .str "orig")]⟩, ⟨"b", [("source", .str "x.txt")]⟩] rfl).1
    ⟨"a", [("source", .str "orig")]⟩ (by simp)

/-! Lemmas about the chunking loop. -/

theorem perDocChunks_fst (w : World) (sp : Splitter) (strat : String) (i : Nat)
    (doc : Document) :
    (perDocChunks w sp strat i doc).1 =
      match w.splitText sp doc.page_content with
      | .error _ => []
      | .ok texts => (texts.enum).map (fun jt =>
          ⟨jt.2, dictSet doc.metadata "chunk_id"
            (.str (mkChunkId (docSourceStr doc) i strat jt.1))⟩) := by
  by_cases hs : strat = "semantic" <;>
    cases h : w.splitText sp doc.page_content <;>
      simp [perDocChunks, hs, h]

theorem perDocChunks_snd_error (w : World) (sp : Splitter) (strat : String) (i : Nat)
    (doc : Document) (e : PyErr) (h : w.splitText sp doc.page_content = .error e) :
    (perDocChunks w sp strat i doc).2 = [⟨.error, "chunk_doc_error"⟩] := by
  by_cases hs : strat = "semantic" <;> simp [perDocChunks, hs, h]

theorem perDocChunks_ids (w : World) (sp : Splitter) (strat : String) (i : Nat)
    (doc : Document) :
    ∃ n, (perDocChunks w sp strat i doc).1.map (fun c => dictGet c.metadata "chunk_id") =
      (List.range n).map
        (fun j => some (MetaVal.str (mkChunkId (docSourceStr doc) i strat j))) := by
  rw [perDocChunks_fst]
  cases h : w.splitText sp doc.page_content with
  | error e => exact ⟨0, by simp⟩
  | ok texts =>
    refine ⟨texts.length, ?_⟩
    rw [List.map_map]
    have hpt : ∀ jt ∈ texts.enum,
        ((fun c => dictGet c.metadata "chunk_id") ∘ (fun jt =>
          (⟨jt.2, dictSet doc.metadata "chunk_id"
            (.str (mkChunkId (docSourceStr doc) i strat jt.1))⟩ : Document))) jt =
        (fun jt : Nat × String =>
          some (MetaVal.str (mkChunkId (docSourceStr doc) i strat jt.1))) jt := by
      intro jt _
      simp [Function.comp, dictGet_dictSet_self]
    rw [List.map_congr_left hpt]
    have : (fun jt : Nat × String =>
        some (MetaVal.str (mkChunkId (docSourceStr doc) i strat jt.1))) =
        (fun j : Nat => some (MetaVal.str (mkChunkId (docSourceStr doc) i strat j)))
          ∘ Prod.fst := rfl
    rw [this, ← List.map_map, List.enum_map_fst]

theorem perDocChunks_id_form (w : World) (sp : Splitter) (strat : String) (i : Nat)
    (doc : Document) (c : Document) (hc : c ∈ (perDocChunks w sp strat i doc).1) :
    ∃ j, dictGet c.metadata "chunk_id" =
      some (MetaVal.str (mkChunkId (docSourceStr doc) i strat j)) := by
  obtain ⟨n, hmap⟩ := perDocChunks_ids w sp strat i doc
  have hmem : dictGet c.metadata "chunk_id" ∈
      (perDocChunks w sp strat i doc).1.map (fun c => dictGet c.metadata "chunk_id") :=
    List.mem_map_of_mem _ hc
  rw [hmap] at hmem
  obtain ⟨j, _, hj⟩ := List.mem_map.mp hmem
  exact ⟨j, hj.symm⟩

theorem chunkLoop_mem_meta (w : World) (sp : Splitter) (strat : String) :
    ∀ docs i (c : Document), c ∈ (chunkLoop w sp strat i docs).1 →
      ∃ p j, ∃ hp : p < docs.length,
        c.metadata = dictSet (docs.get ⟨p, hp⟩).metadata "chunk_id"
          (.str (mkChunkId (docSourceStr (docs.get ⟨p, hp⟩)) (i + p) strat j)) := by
  intro docs
  induction docs with
  | nil =>
    intro i c hc
    simp [chunkLoop] at hc
  | cons doc rest ih =>
    intro i c hc
    simp only [chunkLoop] at hc
    rcases List.mem_append.mp hc with hL | hR
    · rw [perDocChunks_fst] at hL
      cases h : w.splitText sp doc.page_content with
      | error e => rw [h] at hL; simp at hL
      | ok texts =>
        rw [h] at hL
        obtain ⟨jt, _, rfl⟩ := List.mem_map.mp hL
        exact ⟨0, jt.1, Nat.succ_pos rest.length, by rw [Nat.add_zero]; rfl⟩
    · obtain ⟨p, j, hp, hmeta⟩ := ih (i + 1) c hR
      refine ⟨p + 1, j, Nat.succ_lt_succ hp, ?_⟩
      have harith : i + 1 + p = i + (p + 1) := by omega
      rw [harith] at hmeta
      exact hmeta

theorem chunkLoop_ids_nodup (w : World) (sp : Splitter) (strat : String) :
    ∀ docs i, ((chunkLoop w sp strat i docs).1.map
      (fun c => dictGet c.metadata "chunk_id")).Nodup := by
  intro docs
  induction docs with
  | nil => intro i; simp [chunkLoop]
  | cons doc rest ih =>
    intro i
    simp only [chunkLoop, List.map_append]
    rw [List.nodup_append]
    obtain ⟨n, hmap⟩ := perDocChunks_ids w sp strat i doc
    refine ⟨?_, ih (i + 1), ?_⟩
    · rw [hmap]
      refine List.Nodup.map ?_ (List.nodup_range n)
      intro a b hab
      simp only [Option.some.injEq, MetaVal.str.injEq] at hab
      exact (mkChunkId_inj _ _ _ _ _ _ _ hab).2.2
    · intro a ha hb
      rw [hmap] at ha
      obtain ⟨j, _, hja⟩ := List.mem_map.mp ha
      obtain ⟨c, hc, hca⟩ := List.mem_map.mp hb
      obtain ⟨p, j2, hp, hmeta⟩ := chunkLoop_mem_meta w sp strat rest (i + 1) c hc
      rw [← hca, hmeta, dictGet_dictSet_self] at hja
      simp only [Option.some.injEq, MetaVal.str.injEq] at hja
      have := (mkChunkId_inj _ _ _ _ _ _ _ hja).2.1
      omega

theorem get_text_splitter_error_is_valueErr (w : World) (strat : String) (sz ov : Int)
    (kw : SplitterKwargs) (e : PyErr) (lgs : List LogEntry)
    (h : get_text_splitter w strat sz ov kw = (.error e, lgs)) :
    ∃ m, e = PyErr.valueErr m := by
  unfold get_text_splitter constructOr at h
  split_ifs at h <;> repeat' split at h
  all_goals
    simp only [Prod.mk.injEq, Except.error.injEq] at h
  all_goals
    first
    | exact ⟨_, h.1.symm⟩
    | exact absurd h.1 (by simp)

theorem chunk_documents_ok_elim (w : World) (docs : List Document) (strat : String)
    (sz ov : Int) (kw : SplitterKwargs) (res : List Document)
    (h : (chunk_documents w docs strat sz ov kw).1 = .ok res) :
    (docs.isEmpty = true ∧ res = []) ∨
    (docs.isEmpty = false ∧ ∃ m lgs,
      get_text_splitter w strat sz ov kw = (.error (.valueErr m), lgs) ∧ res = []) ∨
    (docs.isEmpty = false ∧ ∃ sp lgs,
      get_text_splitter w strat sz ov kw = (.ok sp, lgs) ∧
      res = (chunkLoop w sp strat 0 docs).1) := by
  by_cases hemp : docs.isEmpty
  · left
    refine ⟨hemp, ?_⟩
    have hdd : (Except.ok [] : Except PyErr (List Document)) = .ok res := by
      rw [← h]; simp [chunk_documents, hemp]
    simpa using hdd
  · have hempf : docs.isEmpty = false := Bool.eq_false_iff.mpr hemp
    cases hg : get_text_splitter w strat sz ov kw with
    | mk r lgs =>
      cases r with
      | error e =>
        obtain ⟨m, rfl⟩ := get_text_splitter_error_is_valueErr w strat sz ov kw e lgs hg
        right; left
        refine ⟨hempf, m, lgs, rfl, ?_⟩
        have hdd : (Except.ok [] : Except PyErr (List Document)) = .ok res := by
          rw [← h]; simp [chunk_documents, hemp, hg]
        simpa using hdd
      | ok sp =>
        right; right
        refine ⟨hempf, sp, lgs, rfl, ?_⟩
        have hdd : (Except.ok (chunkLoop w sp strat 0 docs).1 :
            Except PyErr (List Document)) = .ok res := by
          rw [← h]; simp [chunk_documents, hemp, hg]
        exact (by simpa using hdd : (chunkLoop w sp strat 0 docs).1 = res).symm

theorem chunkLoop_fst_eq (w : World) (sp : Splitter) (strat : String) :
    ∀ docs i, (chunkLoop w sp strat i docs).1 =
      (docs.enumFrom i).flatMap (fun pd =>
        match w.splitText sp pd.2.page_content with
        | .error _ => []
        | .ok texts => texts.enum.map (fun jt =>
            (⟨jt.2, dictSet pd.2.metadata "chunk_id"
              (.str (mkChunkId (docSourceStr pd.2) pd.1 strat jt.1))⟩ : Document))) := by
  intro docs
  induction docs with
  | nil => intro i; simp [chunkLoop]
  | cons doc rest ih =>
    intro i
    simp only [chunkLoop, List.enumFrom, List.flatMap_cons]
    rw [perDocChunks_fst, ih (i + 1)]

theorem chunkLoop_error_logged (w : World) (sp : Splitter) (strat : String) :
    ∀ docs i p (hp : p < docs.length) e,
      w.splitText sp (docs.get ⟨p, hp⟩).page_content = .error e →
      LogEntry.mk .error "chunk_doc_error" ∈ (chunkLoop w sp strat i docs).2 := by
  intro docs
  induction docs with
  | nil => intro i p hp; exact absurd hp (by simp)
  | cons doc rest ih =>
    intro i p hp e hsplit
    simp only [chunkLoop]
    rw [List.mem_append]
    cases p with
    | zero =>
      left
      rw [perDocChunks_snd_error w sp strat i doc e hsplit]
      simp
    | succ n =>
      right
      exact ih (i + 1) n (Nat.lt_of_succ_lt_succ hp) e hsplit

/-- C8: under the recursive or character strategy, every chunk returned by
chunk_documents descends from some input document whose metadata it
preserves: every key of the parent other than chunk_id keeps its original
value in the fragment, and the fragment additionally carries a chunk_id
key.  The parent's own chunk_id value, if it had one, is the single key the
chunker overwrites. -/
theorem chunk_metadata_superset (w : World) (docs : List Document) (strat : String)
    (sz ov : Int) (kw : SplitterKwargs) (res : List Document)
    (_hstrat : strat = "recursive" ∨ strat = "character")
    (h : (chunk_documents w docs strat sz ov kw).1 = .ok res) :
    ∀ c ∈ res, ∃ p, ∃ hp : p < docs.length,
      (∀ k v, k ≠ "chunk_id" → dictGet (docs.get ⟨p, hp⟩).metadata k = some v →
        dictGet c.metadata k = some v) ∧
      (dictGet c.metadata "chunk_id").isSome := by
  intro c hc
  rcases chunk_documents_ok_elim w docs strat sz ov kw res h with
    ⟨_, rfl⟩ | ⟨_, m, lgs, _, rfl⟩ | ⟨_, sp, lgs, hg, rfl⟩
  · exact absurd hc (by simp)
  · exact absurd hc (by simp)
  · obtain ⟨p, j, hp, hmeta⟩ := chunkLoop_mem_meta w sp strat docs 0 c hc
    rw [Nat.zero_add] at hmeta
    refine ⟨p, hp, ?_, ?_⟩
    · intro k v hk hkv
      rw [hmeta, dictGet_dictSet_ne _ _ _ _ hk]
      exact hkv
    · rw [hmeta, dictGet_dictSet_self]
      rfl

/-- Witness for chunk_metadata_superset at WSplit and docsThree: the two
surviving chunks preserve their parents' source values and carry
chunk_id. -/
theorem chunk_metadata_superset_witness :
    ∃ p, ∃ hp : p < docsThree.length,
      (∀ k v, k ≠ "chunk_id" →
        dictGet (docsThree.get ⟨p, hp⟩).metadata k = some v →
        dictGet (⟨"alpha", [("source", .str "s.txt"),
          ("chunk_id", .str (mkChunkId "s.txt" 0 "recursive" 0))]⟩ :
            Document).metadata k = some v) ∧
      (dictGet (⟨"alpha", [("source", .str "s.txt"),
        ("chunk_id", .str (mkChunkId "s.txt" 0 "recursive" 0))]⟩ :
          Document).metadata "chunk_id").isSome :=
  chunk_metadata_superset WSplit docsThree "recursive" 10 2 emptySplitterKwargs
    [⟨"alpha", [("source", .str "s.txt"),
       ("chunk_id", .str (mkChunkId "s.txt" 0 "recursive" 0))]⟩,
     ⟨"omega", [("source", .str "t.txt"),
       ("chunk_id", .str (mkChunkId "t.txt" 2 "recursive" 0))]⟩]
    (Or.inl rfl) rfl
    ⟨"alpha", [("source", .str "s.txt"),
      ("chunk_id", .str (mkChunkId "s.txt" 0 "recursive" 0))]⟩ (by simp)

/-- C3: when every input document carries a source key, every chunk's
chunk_id is the string source underscore document-index underscore strategy
underscore chunk-index, and all chunk_id values of one call are pairwise
distinct.  Determinism under a stable input ordering is immediate here:
the embedding is a pure function of its inputs, so equal inputs give equal
outputs by definition. -/
theorem chunk_ids_format_and_unique (w : World) (docs : List Document) (strat : String)
    (sz ov : Int) (kw : SplitterKwargs) (res : List Document)
    (hsrc : ∀ d ∈ docs, (dictGet d.metadata "source").isSome)
    (h : (chunk_documents w docs strat sz ov kw).1 = .ok res) :
    (∀ c ∈ res, ∃ p j, ∃ hp : p < docs.length, ∃ v,
      dictGet (docs.get ⟨p, hp⟩).metadata "source" = some v ∧
      dictGet c.metadata "chunk_id" = some (.str (mkChunkId (pyStr v) p strat j))) ∧
    (res.map (fun c => dictGet c.metadata "chunk_id")).Nodup := by
  rcases chunk_documents_ok_elim w docs strat sz ov kw res h with
    ⟨_, rfl⟩ | ⟨_, m, lgs, _, rfl⟩ | ⟨_, sp, lgs, hg, rfl⟩
  · exact ⟨fun c hc => absurd hc (by simp), by simp⟩
  · exact ⟨fun c hc => absurd hc (by simp), by simp⟩
  · constructor
    · intro c hc
      obtain ⟨p, j, hp, hmeta⟩ := chunkLoop_mem_meta w sp strat docs 0 c hc
      rw [Nat.zero_add] at hmeta
      obtain ⟨v, hv⟩ := Option.isSome_iff_exists.mp
        (hsrc (docs.get ⟨p, hp⟩) (List.get_mem docs p hp))
      have hds : docSourceStr (docs.get ⟨p, hp⟩) = pyStr v := by
        unfold docSourceStr dictGetD
        rw [hv]
        rfl
      refine ⟨p, j, hp, v, hv, ?_⟩
      rw [hmeta, dictGet_dictSet_self, hds]
    · exact chunkLoop_ids_nodup w sp strat docs 0

/-- Witness for chunk_ids_format_and_unique: the chunk ids of the WSplit
run over docsThree are pairwise distinct. -/
theorem chunk_ids_format_and_unique_witness :
    (([⟨"alpha", [("source", .str "s.txt"),
         ("chunk_id", .str (mkChunkId "s.txt" 0 "recursive" 0))]⟩,
       ⟨"omega", [("source", .str "t.txt"),
         ("chunk_id", .str (mkChunkId "t.txt" 2 "recursive" 0))]⟩] : List Document).map
      (fun c => dictGet c.metadata "chunk_id")).Nodup :=
  (chunk_ids_format_and_unique WSplit docsThree "recursive" 10 2 emptySplitterKwargs
    [⟨"alpha", [("source", .str "s.txt"),
       ("chunk_id", .str (mkChunkId "s.txt" 0 "recursive" 0))]⟩,
     ⟨"omega", [("source", .str "t.txt"),
       ("chunk_id", .str (mkChunkId "t.txt" 2 "recursive" 0))]⟩]
    (by decide) rfl).2

/-- C4: an unknown strategy name makes get_text_splitter raise ValueError;
any ValueError from splitter construction makes the whole nonempty call log
an error and return ok with an empty list; and when construction succeeds,
the call returns exactly the chunks of the documents whose split succeeded,
in order, each failing document contributing nothing but an error log
entry.  The empty-input guard of chunk_documents short-circuits before
construction, which is why the nonempty hypothesis appears. -/
theorem chunk_error_policy (w : World) (docs : List Document) (strat : String)
    (sz ov : Int) (kw : SplitterKwargs) :
    (strat ∉ ["character", "recursive", "semantic", "code_python", "code_javascript",
        "code_markdown"] →
      ∃ m lgs, get_text_splitter w strat sz ov kw = (.error (.valueErr m), lgs)) ∧
    (∀ m lgs, get_text_splitter w strat sz ov kw = (.error (.valueErr m), lgs) →
      docs ≠ [] →
      (chunk_documents w docs strat sz ov kw).1 = .ok [] ∧
      LogEntry.mk .error "splitter_construction_failed" ∈
        (chunk_documents w docs strat sz ov kw).2) ∧
    (∀ sp lgs, get_text_splitter w strat sz ov kw = (.ok sp, lgs) →
      docs ≠ [] →
      (chunk_documents w docs strat sz ov kw).1 = .ok ((docs.enum).flatMap (fun pd =>
        match w.splitText sp pd.2.page_content with
        | .error _ => []
        | .ok texts => texts.enum.map (fun jt =>
            (⟨jt.2, dictSet pd.2.metadata "chunk_id"
              (.str (mkChunkId (docSourceStr pd.2) pd.1 strat jt.1))⟩ : Document)))) ∧
      (∀ i (hi : i < docs.length) e,
        w.splitText sp (docs.get ⟨i, hi⟩).page_content = .error e →
        LogEntry.mk .error "chunk_doc_error" ∈
          (chunk_documents w docs strat sz ov kw).2)) := by
  refine ⟨?_, ?_, ?_⟩
  · intro hnot
    simp only [List.mem_cons, List.not_mem_nil, or_false] at hnot
    push_neg at hnot
    obtain ⟨h1, h2, h3, h4, h5, h6⟩ := hnot
    by_cases hcode : pyStartsWith strat "code_"
    · refine ⟨"unsupported_code_language", [⟨.info, "create_splitter"⟩], ?_⟩
      have hlk : languageMapLookup strat = Option.none := by
        simp only [languageMapLookup, if_neg h4, if_neg h5, if_neg h6]
      simp only [get_text_splitter, if_neg h1, if_neg h2, if_neg h3, if_pos hcode, hlk]
    · refine ⟨"unknown_strategy", [⟨.info, "create_splitter"⟩], ?_⟩
      simp only [get_text_splitter, if_neg h1, if_neg h2, if_neg h3, if_neg hcode]
  · intro m lgs hg hne
    have hemp : docs.isEmpty = false := by
      cases docs
      · exact absurd rfl hne
      · rfl
    constructor
    · have hdd : (Except.ok [] : Except PyErr (List Document)) =
          (chunk_documents w docs strat sz ov kw).1 := by
        simp [chunk_documents, hemp, hg]
      exact hdd.symm
    · have hlogs : (chunk_documents w docs strat sz ov kw).2 =
          lgs ++ [⟨.error, "splitter_construction_failed"⟩] := by
        simp [chunk_documents, hemp, hg]
      rw [hlogs]
      simp
  · intro sp lgs hg hne
    have hemp : docs.isEmpty = false := by
      cases docs
      · exact absurd rfl hne
      · rfl
    constructor
    · have hdd : (chunk_documents w docs strat sz ov kw).1 =
          .ok (chunkLoop w sp strat 0 docs).1 := by
        simp [chunk_documents, hemp, hg]
      rw [hdd, chunkLoop_fst_eq]
      rfl
    · intro i hi e hsplit
      have hlogs : (chunk_documents w docs strat sz ov kw).2 =
          lgs ++ (chunkLoop w sp strat 0 docs).2 ++ [⟨.info, "chunk_totals"⟩] := by
        simp [chunk_documents, hemp, hg]
      rw [hlogs]
      simp only [List.mem_append]
      exact Or.inl (Or.inr (chunkLoop_error_logged w sp strat docs 0 i hi e hsplit))

/-- Witness for chunk_error_policy: in WSplit the middle document of
docsThree fails to split and only the other two contribute chunks; in
WNoConstr every construction fails and the whole call returns empty. -/
theorem chunk_error_policy_witness :
    (chunk_documents WSplit docsThree "recursive" 10 2 emptySplitterKwargs).1 =
      .ok ((docsThree.enum).flatMap (fun pd =>
        match WSplit.splitText
          (Splitter.recursive 10 2 ["\n\n", "\n", ".", " ", ""] true)
          pd.2.page_content with
        | .error _ => []
        | .ok texts => texts.enum.map (fun jt =>
            (⟨jt.2, dictSet pd.2.metadata "chunk_id"
              (.str (mkChunkId (docSourceStr pd.2) pd.1 "recursive" jt.1))⟩ :
              Document)))) ∧
    (chunk_documents WNoConstr docsThree "recursive" 10 2 emptySplitterKwargs).1 =
      .ok [] :=
  ⟨((chunk_error_policy WSplit docsThree "recursive" 10 2 emptySplitterKwargs).2.2
      (Splitter.recursive 10 2 ["\n\n", "\n", ".", " ", ""] true)
      [⟨.info, "create_splitter"⟩] rfl (by simp [docsThree])).1,
   ((chunk_error_policy WNoConstr docsThree "recursive" 10 2 emptySplitterKwargs).2.1
      "constructor refused" [⟨.info, "create_splitter"⟩] rfl (by simp [docsThree])).1⟩

theorem pyStartsWith_code_python : pyStartsWith "code_python" "code_" = true := by rfl

theorem pyStartsWith_code_javascript :
    pyStartsWith "code_javascript" "code_" = true := by rfl

theorem pyStartsWith_code_markdown :
    pyStartsWith "code_markdown" "code_" = true := by rfl

/-- C9: the semantic strategy ignores chunk_size and chunk_overlap: two
calls differing only in those parameters are equal outright (result and
logs), because the semantic constructor is never given them; for every
other strategy the constructed splitter receives exactly the given
chunk_size and chunk_overlap. -/
theorem semantic_ignores_size_params (w : World) (docs : List Document)
    (kw : SplitterKwargs) (_hne : docs ≠ []) (sz1 ov1 sz2 ov2 : Int) :
    chunk_documents w docs "semantic" sz1 ov1 kw =
      chunk_documents w docs "semantic" sz2 ov2 kw ∧
    (∀ strat, strat = "character" ∨ strat = "recursive" ∨ strat = "code_python" ∨
        strat = "code_javascript" ∨ strat = "code_markdown" →
      ∀ sz ov sp lgs, get_text_splitter w strat sz ov kw = (.ok sp, lgs) →
        sp.chunkSizeArg = some sz ∧ sp.chunkOverlapArg = some ov) := by
  constructor
  · rfl
  · intro strat hstrat sz ov sp lgs hg
    rcases hstrat with rfl | rfl | rfl | rfl | rfl <;>
      (simp [get_text_splitter, constructOr, pyStartsWith_code_python,
         pyStartsWith_code_javascript, pyStartsWith_code_markdown,
         languageMapLookup] at hg
       split at hg
       · simp at hg
       · simp only [Prod.mk.injEq, Except.ok.injEq] at hg
         obtain ⟨rfl, -⟩ := hg
         exact ⟨rfl, rfl⟩)

/-- Witness for semantic_ignores_size_params: different sizes give equal
semantic outputs in WSplit, and the character splitter records the exact
size and overlap it was given. -/
theorem semantic_ignores_size_params_witness :
    (chunk_documents WSplit docsThree "semantic" 100 10 emptySplitterKwargs =
      chunk_documents WSplit docsThree "semantic" 5000 333 emptySplitterKwargs) ∧
    ((Splitter.character 100 10 "\n" false).chunkSizeArg = some 100 ∧
     (Splitter.character 100 10 "\n" false).chunkOverlapArg = some 10) :=
  ⟨(semantic_ignores_size_params WSplit docsThree emptySplitterKwargs
      (by simp [docsThree]) 100 10 5000 333).1,
   (semantic_ignores_size_params WSplit docsThree emptySplitterKwargs
      (by simp [docsThree]) 100 10 5000 333).2 "character" (Or.inl rfl)
      100 10 (Splitter.character 100 10 "\n" false) [⟨.info, "create_splitter"⟩] rfl⟩

/-- C10: when the selected pipeline of process_and_save_to_json yields no
documents, nothing is written, no directory is created, a warning is
logged, and the call returns normally (the embedding is total because the
whole source body sits in a catch-all except). -/
theorem empty_pipeline_writes_nothing (w : World)
    (ip op pt cs : String) (sz ov : Int) (isdir rec : Bool) (ap : AdditionalParams)
    (hpt : pt = "load_only" ∨ pt = "load_and_chunk" ∨ pt = "parse")
    (hpipe : (pipelineResult w ip pt cs sz ov isdir rec ap).1 = .ok []) :
    (process_and_save_to_json w ip op pt cs sz ov isdir rec ap).write = Option.none ∧
    (process_and_save_to_json w ip op pt cs sz ov isdir rec ap).mkdirCalls = [] ∧
    LogEntry.mk .warning "nothing_to_save" ∈
      (process_and_save_to_json w ip op pt cs sz ov isdir rec ap).logs := by
  have hmain : process_and_save_to_json w ip op pt cs sz ov isdir rec ap =
      finishSave w op (pipelineResult w ip pt cs sz ov isdir rec ap).1
        (pipelineResult w ip pt cs sz ov isdir rec ap).2 := by
    unfold process_and_save_to_json
    rw [if_pos hpt]
  rw [hmain, hpipe]
  simp [finishSave]

/-- Witness for empty_pipeline_writes_nothing: loading a missing file in
the empty world produces no documents and no output file. -/
theorem empty_pipeline_writes_nothing_witness :
    (process_and_save_to_json W0 "nope.txt" "out.json" "load_only" "recursive"
      1000 100 false true emptyAdditionalParams).write = Option.none ∧
    (process_and_save_to_json W0 "nope.txt" "out.json" "load_only" "recursive"
      1000 100 false true emptyAdditionalParams).mkdirCalls = [] ∧
    LogEntry.mk .warning "nothing_to_save" ∈
      (process_and_save_to_json W0 "nope.txt" "out.json" "load_only" "recursive"
        1000 100 false true emptyAdditionalParams).logs :=
  empty_pipeline_writes_nothing W0 "nope.txt" "out.json" "load_only" "recursive"
    1000 100 false true emptyAdditionalParams (Or.inl rfl) rfl

/-- C5 counterexample: the claim says every metadata value that is not a
JSON-serializable scalar, sequence or mapping is replaced by its string
representation before persistence.  In WNested the pipeline produces one
document whose metadata value under k is a list containing a
non-serializable object; the value is not JSON-serializable, yet the
persisted array carries it unchanged, not as its string form, because the
isinstance test of main.py only inspects the top-level type (list passes);
json.dump is then handed a value it cannot serialize. -/
theorem serialization_shallow_coercion_cex :
    (process_and_save_to_json WNested "in.txt" "out.json" "load_only" "recursive"
      1000 100 false true emptyAdditionalParams).write =
      some ⟨"out.json",
        [⟨"text", [("source", .str "in.txt"), ("k", .list [.other "obj"])]⟩],
        false, 2, "utf-8"⟩ ∧
    jsonSerializable (.list [.other "obj"]) = false ∧
    MetaVal.list [.other "obj"] ≠ .str (pyStr (.list [.other "obj"])) :=
  ⟨rfl, rfl, fun hcon => MetaVal.noConfusion hcon⟩

/-- C5 as amended: when the pipeline yields at least one document, the
call creates the parent directory of the absolute output path and performs
exactly one write at output_path, of the array of page_content/metadata
objects, with ensure_ascii False (non-ASCII left unescaped), indent 2 and
encoding utf-8; each metadata value whose top-level type is not
str, int, float, bool, list, dict or NoneType is replaced by its string
representation, and every other value — including sequences or mappings
whose elements are not serializable — is passed on unchanged. -/
theorem save_writes_shallow_coerced_array (w : World)
    (ip op pt cs : String) (sz ov : Int) (isdir rec : Bool) (ap : AdditionalParams)
    (ds : List Document)
    (hpt : pt = "load_only" ∨ pt = "load_and_chunk" ∨ pt = "parse")
    (hpipe : (pipelineResult w ip pt cs sz ov isdir rec ap).1 = .ok ds)
    (hne : ds ≠ []) :
    (process_and_save_to_json w ip op pt cs sz ov isdir rec ap).write =
      some ⟨op, ds.map serializeDoc, false, 2, "utf-8"⟩ ∧
    (process_and_save_to_json w ip op pt cs sz ov isdir rec ap).mkdirCalls =
      [pyDirname (w.abspath op)] ∧
    (∀ v, topSerializableType v = true → coerceValue v = v) ∧
    (∀ v, topSerializableType v = false → coerceValue v = .str (pyStr v)) := by
  have hmain : process_and_save_to_json w ip op pt cs sz ov isdir rec ap =
      finishSave w op (pipelineResult w ip pt cs sz ov isdir rec ap).1
        (pipelineResult w ip pt cs sz ov isdir rec ap).2 := by
    unfold process_and_save_to_json
    rw [if_pos hpt]
  have hde : ds.isEmpty = false := by
    cases ds
    · exact absurd rfl hne
    · rfl
  refine ⟨?_, ?_, ?_, ?_⟩
  · rw [hmain, hpipe]; simp [finishSave, hde]
  · rw [hmain, hpipe]; simp [finishSave, hde]
  · intro v hv; simp [coerceValue, hv]
  · intro v hv; simp [coerceValue, hv]

/-- Witness for save_writes_shallow_coerced_array at WNested. -/
theorem save_writes_shallow_coerced_array_witness :
    (process_and_save_to_json WNested "in.txt" "out2.json" "load_only" "recursive"
      1000 100 false true emptyAdditionalParams).write =
      some ⟨"out2.json", [nestedBadDoc].map serializeDoc, false, 2, "utf-8"⟩ :=
  (save_writes_shallow_coerced_array WNested "in.txt" "out2.json" "load_only"
    "recursive" 1000 100 false true emptyAdditionalParams [nestedBadDoc]
    (Or.inl rfl) rfl (by simp)).1
